import Mathlib

/-!
Verification of the agent execution core of the ML-engineer agent repository.

The Lean definitions below are shallow embeddings of the Python sources:
  * `backend/ml_engineer/python_executor.py` (Execution Sandbox),
  * `backend/ml_engineer/tag_parser.py` (Tag/Action Extractor),
  * `backend/ml_engineer/agent.py` (Orchestration Loop),
  * `backend/server.py` (Session & Event Bus).
Python dictionaries become functions `String → Option α`, the mutable
module-level sandbox state becomes an explicit state record threaded through
each operation, the effect of `exec` on the interpreter is an oracle
`ExecOutcome` parameter, and the cooperative asyncio interleaving of the
event bus becomes a step relation driven by an explicit schedule.
-/

namespace MLEngineer

/-! ## String utilities shared by the embeddings

Python string membership (`needle in hay`), `str.strip()` and `str.lower()`
are modelled over `List Char`.  Lowercasing is modelled on the ASCII range
(`Char.toLower`), which covers every string the sources compare against.
-/

/-- Whitespace test used by Python's `str.strip` and the regex class `\s`
(ASCII range: space, tab, newline, carriage return, vertical tab, form feed). -/
def py_isspace (c : Char) : Bool :=
  c == ' ' || c == '\t' || c == '\n' || c == '\r' || c == '\x0B' || c == '\x0C'

/-- Python substring membership `needle in hay`. -/
def substr_in (needle hay : List Char) : Bool :=
  hay.tails.any (fun t => needle.isPrefixOf t)

/-- Python `str.strip()`: drop whitespace from both ends. -/
def py_strip (s : List Char) : List Char :=
  ((s.dropWhile py_isspace).reverse.dropWhile py_isspace).reverse

/-- Python `str.lower()` (ASCII model). -/
def py_lower (s : List Char) : List Char :=
  s.map Char.toLower

/-- A needle occurs in any list that contains it as a contiguous run. -/
theorem substr_in_of_middle (a x b : List Char) :
    substr_in x (a ++ (x ++ b)) = true := by
  unfold substr_in
  rw [List.any_eq_true]
  refine ⟨x ++ b, ?_, ?_⟩
  · rw [List.mem_tails]
    exact ⟨a, rfl⟩
  · rw [List.isPrefixOf_iff_prefix]
    exact ⟨b, rfl⟩

/-- Characterization of Python substring membership. -/
theorem substr_in_iff (x h : List Char) :
    substr_in x h = true ↔ ∃ l₁ l₂, h = l₁ ++ (x ++ l₂) := by
  constructor
  · intro hs
    unfold substr_in at hs
    rw [List.any_eq_true] at hs
    obtain ⟨t, ht, hpre⟩ := hs
    rw [List.mem_tails] at ht
    rw [List.isPrefixOf_iff_prefix] at hpre
    obtain ⟨l₁, h₁⟩ := ht
    obtain ⟨l₂, h₂⟩ := hpre
    exact ⟨l₁, l₂, by rw [← h₁, ← h₂]⟩
  · rintro ⟨l₁, l₂, rfl⟩
    exact substr_in_of_middle l₁ x l₂

/-- Substring membership is preserved by extending the haystack on the right. -/
theorem substr_in_append_right (x h h₂ : List Char) (hs : substr_in x h = true) :
    substr_in x (h ++ h₂) = true := by
  rw [substr_in_iff] at hs ⊢
  obtain ⟨l₁, l₂, rfl⟩ := hs
  exact ⟨l₁, l₂ ++ h₂, by simp⟩

/-- Substring membership in a string, via the underlying character lists. -/
def substr_in_str (needle hay : String) : Bool :=
  substr_in needle.toList hay.toList

/-! ## Execution Sandbox (`backend/ml_engineer/python_executor.py`)

The module-level mutable pair `_persistent_namespace` / `_execution_history`
becomes the record `SandboxState`.  What CPython's `exec` does to the
namespace — and whether it finishes normally, raises, or is interrupted by
the `SIGALRM` handler — is the oracle argument `sem`; the embedding of
`run_python_repl` performs exactly the bookkeeping the Python function
performs around `exec`. -/

/-- The dictionary returned by `run_python_repl` (keys `output`, `error`,
`plots`, `success`, `code`). -/
structure ExecResult where
  output : String
  error : String
  plots : List String
  success : Bool
  code : String
deriving DecidableEq, Repr

/-- Observable outcome of `exec(command, _persistent_namespace)` run under
`redirect_stdout`/`redirect_stderr`/`PlotCapture`: the namespace after the
call (mutated in place, also on failure), the captured streams and plots,
and whether it returned, raised an exception (type name, message, formatted
traceback), or was interrupted by the `TimeoutError` from `timeout_handler`. -/
inductive ExecOutcome (α : Type) where
  | ok (env : String → Option α) (stdout stderr : String) (plots : List String)
  | exn (ename emsg etb : String) (env : String → Option α)
      (stdout stderr : String) (plots : List String)
  | timedOut (env : String → Option α) (stdout stderr : String) (plots : List String)

/-- Namespace left behind by the `exec` call, whatever its outcome. -/
def ExecOutcome.env_after {α : Type} : ExecOutcome α → (String → Option α)
  | .ok env _ _ _ => env
  | .exn _ _ _ env _ _ _ => env
  | .timedOut env _ _ _ => env

/-- Module state of `python_executor.py`: `_persistent_namespace` and
`_execution_history`. -/
structure SandboxState (α : Type) where
  persistent_namespace : String → Option α
  execution_history : List ExecResult

/-- `_supports_signal_timeout`: signal-based alarms are usable exactly on the
thread owning the signal-handling context (the main thread). -/
def _supports_signal_timeout (is_main_thread : Bool) : Bool :=
  is_main_thread

/-- The error text assigned when the alarm fires
(`f"Execution timed out after {timeout_seconds} seconds"`). -/
def timeout_error_text (timeout_seconds : Nat) : String :=
  "Execution timed out after " ++ toString timeout_seconds ++ " seconds"

/-- The error text assigned for an exception
(`f"{type(e).__name__}: {str(e)}\n{traceback.format_exc()}"`). -/
def exception_error_text (ename emsg etb : String) : String :=
  ename ++ ": " ++ emsg ++ "\n" ++ etb

/-- The trailing `if stderr_capture.getvalue(): result['error'] += ...`. -/
def append_stderr (base stderr : String) : String :=
  if stderr == "" then base else base ++ stderr

/-- `run_python_repl(command, timeout_seconds)`: run the code against the
persistent namespace, build the result record, append it to the execution
history.  `sem` receives the `use_timeout` capability flag and the current
namespace and reports what `exec` did. -/
def run_python_repl {α : Type} (is_main_thread : Bool) (timeout_seconds : Nat)
    (command : String) (sem : Bool → (String → Option α) → ExecOutcome α)
    (s : SandboxState α) : ExecResult × SandboxState α :=
  let use_timeout := _supports_signal_timeout is_main_thread
  let outcome := sem use_timeout s.persistent_namespace
  let result : ExecResult :=
    match outcome with
    | .ok _ stdout stderr plots =>
        { output := stdout, error := append_stderr "" stderr,
          plots := plots, success := true, code := command }
    | .exn ename emsg etb _ stdout stderr plots =>
        { output := stdout,
          error := append_stderr (exception_error_text ename emsg etb) stderr,
          plots := plots, success := false, code := command }
    | .timedOut _ stdout stderr plots =>
        { output := stdout,
          error := append_stderr (timeout_error_text timeout_seconds) stderr,
          plots := plots, success := false, code := command }
  (result,
    { persistent_namespace := outcome.env_after,
      execution_history := s.execution_history ++ [result] })

/-- Python `dict.update(variables)` where `variables` is given as an ordered
list of key/value pairs (later pairs win). -/
def dict_update {α : Type} (d : String → Option α) (vars : List (String × α)) :
    String → Option α :=
  vars.foldl (fun e kv => fun k => if k = kv.1 then some kv.2 else e k) d

/-- `inject_variables(variables)`: merge the pairs into the persistent
namespace. -/
def inject_variables {α : Type} (vars : List (String × α)) (s : SandboxState α) :
    SandboxState α :=
  { s with persistent_namespace := dict_update s.persistent_namespace vars }

/-- `clear_namespace()`. -/
def clear_namespace {α : Type} (s : SandboxState α) : SandboxState α :=
  { s with persistent_namespace := fun _ => none }

/-- `clear_history()`. -/
def clear_history {α : Type} (s : SandboxState α) : SandboxState α :=
  { s with execution_history := [] }

/-- `get_execution_history()` (returns a copy of the list). -/
def get_execution_history {α : Type} (s : SandboxState α) : List ExecResult :=
  s.execution_history

/-- A sequence of `run_python_repl` calls against one sandbox instance,
each with its own code string and `exec` oracle. -/
def run_many {α : Type} (is_main_thread : Bool) (timeout_seconds : Nat)
    (calls : List (String × (Bool → (String → Option α) → ExecOutcome α)))
    (s : SandboxState α) : SandboxState α :=
  calls.foldl
    (fun st c => (run_python_repl is_main_thread timeout_seconds c.1 c.2 st).2) s

/-! ## Sandbox lemmas and claim theorems -/

/-- Every call appends exactly its own result record to the history. -/
theorem run_python_repl_history_eq {α : Type} (im : Bool) (t : Nat) (cmd : String)
    (sem : Bool → (String → Option α) → ExecOutcome α) (s : SandboxState α) :
    (run_python_repl im t cmd sem s).2.execution_history
      = s.execution_history ++ [(run_python_repl im t cmd sem s).1] := rfl

/-- Unfolding one call of a call sequence. -/
theorem run_many_cons {α : Type} (im : Bool) (t : Nat)
    (c : String × (Bool → (String → Option α) → ExecOutcome α))
    (cs : List (String × (Bool → (String → Option α) → ExecOutcome α)))
    (s : SandboxState α) :
    run_many im t (c :: cs) s = run_many im t cs (run_python_repl im t c.1 c.2 s).2 := rfl

/-- If a substring occurs in the base error text, it still occurs after the
captured stderr is appended. -/
theorem substr_in_str_append_stderr (x base stderr : String)
    (hs : substr_in_str x base = true) :
    substr_in_str x (append_stderr base stderr) = true := by
  unfold append_stderr
  split
  · exact hs
  · unfold substr_in_str at hs ⊢
    rw [show (base ++ stderr).toList = base.toList ++ stderr.toList by
      simp [String.toList]]
    exact substr_in_append_right _ _ _ hs

/-- One step of `dict.update`. -/
theorem dict_update_cons {α : Type} (d : String → Option α) (kv : String × α)
    (rest : List (String × α)) :
    dict_update d (kv :: rest)
      = dict_update (fun k => if k = kv.1 then some kv.2 else d k) rest := rfl

/-- `dict.update` leaves keys outside the update alone. -/
theorem dict_update_not_mem {α : Type} (d : String → Option α)
    (vars : List (String × α)) (k : String) (hk : k ∉ vars.map Prod.fst) :
    dict_update d vars k = d k := by
  induction vars generalizing d with
  | nil => rfl
  | cons kv rest ih =>
      have h1 : ¬ k = kv.1 := fun h => hk (by simp [h])
      have h2 : k ∉ rest.map Prod.fst := fun h => hk (by simp [h])
      rw [dict_update_cons, ih _ h2]
      simp [h1]

/-- `dict.update` installs every updated binding (keys assumed distinct). -/
theorem dict_update_mem {α : Type} (d : String → Option α)
    (vars : List (String × α)) (k : String) (v : α)
    (hnd : (vars.map Prod.fst).Nodup) (hmem : (k, v) ∈ vars) :
    dict_update d vars k = some v := by
  induction vars generalizing d with
  | nil => cases hmem
  | cons kv rest ih =>
      rw [dict_update_cons]
      rw [List.map_cons, List.nodup_cons] at hnd
      rcases List.mem_cons.mp hmem with heq | hrest
      · have hk : k ∉ rest.map Prod.fst := by
          rw [← heq] at hnd
          exact hnd.1
        rw [dict_update_not_mem _ _ _ hk, ← heq]
        simp
      · exact ih _ hnd.2 hrest

/-- C3.  Any exception raised by the executed code is caught rather than
propagated: `run_python_repl` returns a structured record whose `success`
flag is false, whose `error` field contains the exception's type name and
the full traceback, and the record is appended to the execution history. -/
theorem C3_execute_catches_exceptions {α : Type} (is_main_thread : Bool)
    (timeout_seconds : Nat) (command : String)
    (sem : Bool → (String → Option α) → ExecOutcome α) (s : SandboxState α)
    (ename emsg etb : String) (env : String → Option α)
    (stdout stderr : String) (plots : List String)
    (h : sem (_supports_signal_timeout is_main_thread) s.persistent_namespace
          = .exn ename emsg etb env stdout stderr plots) :
    (run_python_repl is_main_thread timeout_seconds command sem s).1.success = false ∧
    substr_in_str ename
      (run_python_repl is_main_thread timeout_seconds command sem s).1.error = true ∧
    substr_in_str etb
      (run_python_repl is_main_thread timeout_seconds command sem s).1.error = true ∧
    (run_python_repl is_main_thread timeout_seconds command sem s).1.code = command ∧
    (run_python_repl is_main_thread timeout_seconds command sem s).2.execution_history
      = s.execution_history
        ++ [(run_python_repl is_main_thread timeout_seconds command sem s).1] := by
  have hrec : (run_python_repl is_main_thread timeout_seconds command sem s).1
      = { output := stdout,
          error := append_stderr (exception_error_text ename emsg etb) stderr,
          plots := plots, success := false, code := command } := by
    simp only [run_python_repl, h]
  refine ⟨by rw [hrec], ?_, ?_, by rw [hrec], rfl⟩
  · rw [hrec]
    apply substr_in_str_append_stderr
    unfold substr_in_str exception_error_text
    rw [substr_in_iff]
    exact ⟨[], (": " ++ emsg ++ "\n" ++ etb).toList, by simp [String.toList]⟩
  · rw [hrec]
    apply substr_in_str_append_stderr
    unfold substr_in_str exception_error_text
    rw [substr_in_iff]
    exact ⟨(ename ++ ": " ++ emsg ++ "\n").toList, [], by simp [String.toList]⟩

/-- An empty sandbox instance (fresh namespace, empty history). -/
def empty_sandbox : SandboxState Unit :=
  { persistent_namespace := fun _ => none, execution_history := [] }

/-- An `exec` oracle that always raises `ZeroDivisionError`. -/
def c3_sem : Bool → (String → Option Unit) → ExecOutcome Unit :=
  fun _ _ => .exn "ZeroDivisionError" "division by zero"
    "Traceback (most recent call last):" (fun _ => none) "" "" []

/-- Witness for C3 at a concrete failing execution. -/
theorem C3_witness :
    (run_python_repl true 60 "1/0" c3_sem empty_sandbox).1.success = false ∧
    substr_in_str "ZeroDivisionError"
      (run_python_repl true 60 "1/0" c3_sem empty_sandbox).1.error = true ∧
    substr_in_str "Traceback (most recent call last):"
      (run_python_repl true 60 "1/0" c3_sem empty_sandbox).1.error = true ∧
    (run_python_repl true 60 "1/0" c3_sem empty_sandbox).1.code = "1/0" ∧
    (run_python_repl true 60 "1/0" c3_sem empty_sandbox).2.execution_history
      = empty_sandbox.execution_history
        ++ [(run_python_repl true 60 "1/0" c3_sem empty_sandbox).1] :=
  C3_execute_catches_exceptions true 60 "1/0" c3_sem empty_sandbox
    "ZeroDivisionError" "division by zero" "Traceback (most recent call last):"
    (fun _ => none) "" "" [] rfl

/-- C4.  A sequence of `N` executions appends exactly `N` records to the
execution history (append-only, one record per call, whatever the
success/failure mix), and no operation other than `clear_history` removes
or reorders records: `inject_variables` and `clear_namespace` leave the
history untouched, while `clear_history` empties it. -/
theorem C4_history_append_only {α : Type} (im : Bool) (t : Nat)
    (calls : List (String × (Bool → (String → Option α) → ExecOutcome α)))
    (s : SandboxState α) (vars : List (String × α)) :
    (∃ added : List ExecResult,
        (run_many im t calls s).execution_history = s.execution_history ++ added ∧
        added.length = calls.length) ∧
    (inject_variables vars s).execution_history = s.execution_history ∧
    (clear_namespace s).execution_history = s.execution_history ∧
    get_execution_history (clear_history s) = [] := by
  refine ⟨?_, rfl, rfl, rfl⟩
  induction calls generalizing s with
  | nil => exact ⟨[], by simp [run_many], rfl⟩
  | cons c cs ih =>
      obtain ⟨added, h1, h2⟩ := ih ((run_python_repl im t c.1 c.2 s).2)
      refine ⟨(run_python_repl im t c.1 c.2 s).1 :: added, ?_, by simp [h2]⟩
      rw [run_many_cons, h1, run_python_repl_history_eq]
      simp

/-- C5.  Executions run against the one persistent namespace: every binding
present in the environment produced by the first execution is visible in
the sandbox namespace the next execution receives; and `inject_variables`
merges its pairs into the namespace while leaving every key outside the
injected mapping unchanged. -/
theorem C5_persistence_and_inject {α : Type} (im : Bool) (t : Nat) (c1 : String)
    (sem1 : Bool → (String → Option α) → ExecOutcome α) (s : SandboxState α)
    (vars : List (String × α)) :
    (∀ x v,
        (sem1 (_supports_signal_timeout im) s.persistent_namespace).env_after x
          = some v →
        (run_python_repl im t c1 sem1 s).2.persistent_namespace x = some v) ∧
    (∀ k, k ∉ vars.map Prod.fst →
        (inject_variables vars s).persistent_namespace k
          = s.persistent_namespace k) ∧
    (∀ k v, (vars.map Prod.fst).Nodup → (k, v) ∈ vars →
        (inject_variables vars s).persistent_namespace k = some v) := by
  refine ⟨?_, ?_, ?_⟩
  · intro x v hx
    exact hx
  · intro k hk
    exact dict_update_not_mem _ _ _ hk
  · intro k v hnd hm
    exact dict_update_mem _ _ _ _ hnd hm

/-- An `exec` oracle that binds the variable `x` and leaves the rest alone. -/
def c5_sem : Bool → (String → Option Unit) → ExecOutcome Unit :=
  fun _ e => .ok (fun k => if k = "x" then some () else e k) "" "" []

/-- Witness for C5: a binding made by one execution is visible afterwards,
and injection preserves non-injected keys while adding the injected one. -/
theorem C5_witness :
    (run_python_repl true 60 "x = 1" c5_sem empty_sandbox).2.persistent_namespace "x"
      = some () ∧
    (inject_variables [("DATASET_PATH", ())] empty_sandbox).persistent_namespace "y"
      = empty_sandbox.persistent_namespace "y" ∧
    (inject_variables [("DATASET_PATH", ())]
        empty_sandbox).persistent_namespace "DATASET_PATH" = some () := by
  have h := C5_persistence_and_inject true 60 "x = 1" c5_sem empty_sandbox
    [("DATASET_PATH", ())]
  exact ⟨h.1 "x" () (by simp [c5_sem, ExecOutcome.env_after]),
    h.2.1 "y" (by decide),
    h.2.2 "DATASET_PATH" () (by decide) (by decide)⟩

/-- C6.  When the execution context is signal-capable and the `exec` call is
interrupted by the alarm, the record's `success` flag is false, its `error`
field contains the timeout indicator, and the namespace mutations made
before the alarm fired are kept, not rolled back. -/
theorem C6_timeout_on_main_thread {α : Type} (is_main_thread : Bool)
    (timeout_seconds : Nat) (command : String)
    (sem : Bool → (String → Option α) → ExecOutcome α) (s : SandboxState α)
    (env : String → Option α) (stdout stderr : String) (plots : List String)
    (hcap : _supports_signal_timeout is_main_thread = true)
    (h : sem true s.persistent_namespace = .timedOut env stdout stderr plots) :
    (run_python_repl is_main_thread timeout_seconds command sem s).1.success
      = false ∧
    substr_in_str "timed out"
      (run_python_repl is_main_thread timeout_seconds command sem s).1.error
      = true ∧
    (run_python_repl is_main_thread timeout_seconds command sem s).2.persistent_namespace
      = env := by
  have him : is_main_thread = true := hcap
  subst him
  have hrec : (run_python_repl true timeout_seconds command sem s).1
      = { output := stdout,
          error := append_stderr (timeout_error_text timeout_seconds) stderr,
          plots := plots, success := false, code := command } := by
    simp only [run_python_repl, _supports_signal_timeout, h]
  refine ⟨by rw [hrec], ?_, ?_⟩
  · rw [hrec]
    apply substr_in_str_append_stderr
    unfold substr_in_str timeout_error_text
    rw [substr_in_iff]
    refine ⟨"Execution ".toList, (" after " ++ toString timeout_seconds
      ++ " seconds").toList, ?_⟩
    rw [show ("Execution " : String).toList ++ ("timed out".toList
        ++ (" after " ++ toString timeout_seconds ++ " seconds").toList)
      = ("Execution " : String).toList ++ "timed out".toList ++ " after ".toList
        ++ (toString timeout_seconds).toList ++ " seconds".toList by simp]
    simp [String.toList]
  · show (sem (_supports_signal_timeout true) s.persistent_namespace).env_after = env
    rw [show _supports_signal_timeout true = true from rfl, h]
    rfl

/-- Environment left behind by a timed-out execution in the C6 witness. -/
def c6_env : String → Option Unit :=
  fun k => if k = "partial" then some () else none

/-- An `exec` oracle that times out exactly when the alarm capability is
available, leaving a partial mutation behind. -/
def c6_sem : Bool → (String → Option Unit) → ExecOutcome Unit :=
  fun use_timeout e =>
    if use_timeout then .timedOut c6_env "" "" [] else .ok e "" "" []

/-- Witness for C6 at a concrete timed-out execution on the main thread. -/
theorem C6_witness :
    (run_python_repl true 60 "while True: pass" c6_sem empty_sandbox).1.success
      = false ∧
    substr_in_str "timed out"
      (run_python_repl true 60 "while True: pass" c6_sem empty_sandbox).1.error
      = true ∧
    (run_python_repl true 60 "while True: pass"
        c6_sem empty_sandbox).2.persistent_namespace = c6_env :=
  C6_timeout_on_main_thread true 60 "while True: pass" c6_sem empty_sandbox
    c6_env "" "" [] rfl rfl

/-- C10.  A successful execution that wrote to stderr yields a record whose
`success` flag is true while its `error` field is the nonempty captured
stderr text: success does not imply an empty error field. -/
theorem C10_stderr_kept_on_success {α : Type} (is_main_thread : Bool)
    (timeout_seconds : Nat) (command : String)
    (sem : Bool → (String → Option α) → ExecOutcome α) (s : SandboxState α)
    (env : String → Option α) (stdout stderr : String) (plots : List String)
    (h : sem (_supports_signal_timeout is_main_thread) s.persistent_namespace
          = .ok env stdout stderr plots)
    (hne : stderr ≠ "") :
    (run_python_repl is_main_thread timeout_seconds command sem s).1.success
      = true ∧
    (run_python_repl is_main_thread timeout_seconds command sem s).1.error
      = stderr ∧
    (run_python_repl is_main_thread timeout_seconds command sem s).1.error
      ≠ "" := by
  have hrec : (run_python_repl is_main_thread timeout_seconds command sem s).1
      = { output := stdout, error := append_stderr "" stderr,
          plots := plots, success := true, code := command } := by
    simp only [run_python_repl, h]
  have herr : append_stderr "" stderr = stderr := by
    unfold append_stderr
    rw [if_neg (by simpa using hne)]
    simp
  refine ⟨by rw [hrec], by rw [hrec]; exact herr, by rw [hrec]; rw [herr]; exact hne⟩

/-- An `exec` oracle that succeeds while writing a warning to stderr. -/
def c10_sem : Bool → (String → Option Unit) → ExecOutcome Unit :=
  fun _ e => .ok e "" "FutureWarning: deprecated\n" []

/-- Witness for C10 at a concrete successful execution with stderr output. -/
theorem C10_witness :
    (run_python_repl true 60 "warn()" c10_sem empty_sandbox).1.success = true ∧
    (run_python_repl true 60 "warn()" c10_sem empty_sandbox).1.error
      = "FutureWarning: deprecated\n" ∧
    (run_python_repl true 60 "warn()" c10_sem empty_sandbox).1.error ≠ "" :=
  C10_stderr_kept_on_success true 60 "warn()" c10_sem empty_sandbox
    (fun _ => none) "" "FutureWarning: deprecated\n" [] rfl (by decide)

/-! ## Orchestration Loop (`backend/ml_engineer/agent.py`)

The LangGraph graph has nodes `generate` and `execute_tools`, entry point
`generate`, a conditional edge out of `generate` decided by
`_should_continue` (`"continue" → execute_tools`, `"end" → END`), and an
unconditional edge `execute_tools → generate`.  The reasoning engine
(`self.llm_with_tools.invoke`) is a parameter `llm` returning the response
content and its tool calls; `self.iteration_count` (reset to 0 by `run`)
lives in `AgentState` next to the message list, and is incremented exactly
once per reasoning-engine call. -/

/-- A LangChain tool call: `{id, name, args}`. -/
structure ToolCall where
  id : String
  name : String
  args : List (String × String)
deriving DecidableEq, Repr

/-- LangChain message kinds used by the agent. -/
inductive Message where
  | system (content : String)
  | human (content : String)
  | ai (content : String) (tool_calls : List ToolCall)
  | tool (content : String) (tool_call_id : String) (name : String)
deriving DecidableEq, Repr

/-- The termination signal test of `_should_continue`:
`"<solution>" in last_message.content.lower()`. -/
def has_solution_marker (content : String) : Bool :=
  substr_in "<solution>".toList (py_lower content.toList)

/-- Whether a message is an assistant message carrying a solution marker. -/
def ai_with_solution (m : Message) : Bool :=
  match m with
  | .ai content _ => has_solution_marker content
  | _ => false

/-- The graph state (`AgentState.messages`) plus the agent's iteration
counter. -/
structure AgentState where
  messages : List Message
  iteration_count : Nat
deriving DecidableEq, Repr

/-- Content of the synthetic assistant message of `_generate_node`'s budget
branch. -/
def max_iterations_content : String :=
  "<solution>Maximum iterations reached. Please review the work done so far.</solution>"

/-- `_generate_node`: check the iteration limit BEFORE incrementing; at the
limit, append the synthetic solution message without calling the engine;
otherwise increment the counter and append the engine's response. -/
def _generate_node (max_iterations : Nat)
    (llm : List Message → String × List ToolCall) (s : AgentState) : AgentState :=
  if max_iterations ≤ s.iteration_count then
    { messages := s.messages ++ [.ai max_iterations_content []],
      iteration_count := s.iteration_count }
  else
    let response := llm s.messages
    { messages := s.messages ++ [.ai response.1 response.2],
      iteration_count := s.iteration_count + 1 }

/-- `_should_continue`: end when the budget is exhausted; otherwise end when
the latest message is an assistant message with a solution marker; otherwise
continue exactly when it carries tool calls. -/
def _should_continue (max_iterations : Nat) (s : AgentState) : Bool :=
  if max_iterations ≤ s.iteration_count then
    false
  else
    match s.messages.getLast? with
    | some (.ai content tool_calls) =>
        if has_solution_marker content then false
        else !tool_calls.isEmpty
    | _ => false

/-- The agent's tool registry (`tool_map`): names mapped to callables that
return a result string or raise (`Except.error`). -/
def ToolRegistry : Type :=
  List (String × (List (String × String) → Except String String))

/-- `if tool_name in tool_map: tool_map[tool_name]`. -/
def tool_map_lookup (tools : ToolRegistry) (n : String) :
    Option (List (String × String) → Except String String) :=
  (tools.find? (fun p => p.1 == n)).map Prod.snd

/-- The `try/except` around one `tool_map[tool_name].invoke(tool_args)`:
a raising tool is converted into an error-text ToolMessage. -/
def tool_result_message (tc : ToolCall) (res : Except String String) : Message :=
  match res with
  | .ok r => .tool r tc.id tc.name
  | .error e => .tool ("Error executing " ++ tc.name ++ ": " ++ e) tc.id tc.name

/-- The dispatch loop of `_execute_tools_node`: known tools produce one
ToolMessage each (error-converted if they raise); a name missing from
`tool_map` produces nothing. -/
def run_tool_calls (tools : ToolRegistry) : List ToolCall → List Message
  | [] => []
  | tc :: rest =>
      match tool_map_lookup tools tc.name with
      | some f => tool_result_message tc (f tc.args) :: run_tool_calls tools rest
      | none => run_tool_calls tools rest

/-- `_execute_tools_node`: dispatch the latest message's tool calls and
append the resulting ToolMessages. -/
def _execute_tools_node (tools : ToolRegistry) (s : AgentState) : AgentState :=
  { messages := s.messages ++
      (match s.messages.getLast? with
       | some (.ai _ tool_calls) => run_tool_calls tools tool_calls
       | _ => []),
    iteration_count := s.iteration_count }

/-- The compiled graph: `generate`, then either `END` or `execute_tools`
followed by `generate` again.  Structured with explicit fuel; `agent_run`
supplies enough fuel that it is never exhausted from a fresh state. -/
def agent_loop (max_iterations : Nat)
    (llm : List Message → String × List ToolCall) (tools : ToolRegistry) :
    Nat → AgentState → AgentState
  | 0, s => s
  | fuel + 1, s =>
      let s1 := _generate_node max_iterations llm s
      if _should_continue max_iterations s1 then
        agent_loop max_iterations llm tools fuel (_execute_tools_node tools s1)
      else s1

/-- `run(prompt)`, restricted to the loop: reset the iteration counter to 0
and drive the graph from the initial messages to the final state. -/
def agent_run (max_iterations : Nat)
    (llm : List Message → String × List ToolCall) (tools : ToolRegistry)
    (init_messages : List Message) : AgentState :=
  agent_loop max_iterations llm tools (max_iterations + 1)
    { messages := init_messages, iteration_count := 0 }

/-! ## Orchestration Loop lemmas and claim theorems -/

/-- Dispatch produces only ToolMessages, never assistant messages. -/
theorem run_tool_calls_no_ai (tools : ToolRegistry) (tcs : List ToolCall) :
    ∀ m ∈ run_tool_calls tools tcs, ai_with_solution m = false := by
  induction tcs with
  | nil =>
      intro m hm
      simp only [run_tool_calls] at hm
      cases hm
  | cons tc rest ih =>
      intro m hm
      simp only [run_tool_calls] at hm
      cases hlook : tool_map_lookup tools tc.name with
      | none =>
          rw [hlook] at hm
          exact ih m hm
      | some f =>
          rw [hlook] at hm
          rcases List.mem_cons.mp hm with heq | hrest
          · subst heq
            cases hres : f tc.args <;> simp [tool_result_message, hres, ai_with_solution]
          · exact ih m hrest

/-- Core budget invariant: starting strictly below the budget with enough
fuel, and an engine that always requests tools and never emits a solution
marker, the loop stops with the counter exactly at the maximum and appends
no solution-marked assistant message. -/
theorem agent_loop_budget (max_iterations : Nat)
    (llm : List Message → String × List ToolCall) (tools : ToolRegistry)
    (hllm : ∀ ms, (llm ms).2 ≠ [] ∧ has_solution_marker (llm ms).1 = false) :
    ∀ fuel s, s.iteration_count < max_iterations →
      max_iterations ≤ s.iteration_count + fuel →
      (agent_loop max_iterations llm tools fuel s).iteration_count
        = max_iterations ∧
      ∃ tail, (agent_loop max_iterations llm tools fuel s).messages
          = s.messages ++ tail ∧ ∀ m ∈ tail, ai_with_solution m = false := by
  intro fuel
  induction fuel with
  | zero =>
      intro s hlt hle
      omega
  | succ fuel ih =>
      intro s hlt hle
      have hgen : _generate_node max_iterations llm s
          = { messages := s.messages ++ [.ai (llm s.messages).1 (llm s.messages).2],
              iteration_count := s.iteration_count + 1 } := by
        unfold _generate_node
        rw [if_neg (by omega)]
      by_cases h2 : max_iterations ≤ s.iteration_count + 1
      · have hmaxeq : s.iteration_count + 1 = max_iterations := by omega
        have hsc : _should_continue max_iterations
            (_generate_node max_iterations llm s) = false := by
          unfold _should_continue
          rw [hgen]
          exact if_pos (by simpa using h2)
        simp only [agent_loop]
        rw [if_neg (by simp [hsc]), hgen]
        refine ⟨hmaxeq, [.ai (llm s.messages).1 (llm s.messages).2], rfl, ?_⟩
        intro m hm
        rcases List.mem_singleton.mp hm with rfl
        simpa [ai_with_solution] using (hllm s.messages).2
      · have hsc : _should_continue max_iterations
            (_generate_node max_iterations llm s) = true := by
          unfold _should_continue
          rw [hgen]
          rw [if_neg (by simpa using h2)]
          rw [List.getLast?_concat]
          show (if has_solution_marker (llm s.messages).1 = true then false
            else !(llm s.messages).2.isEmpty) = true
          rw [(hllm s.messages).2]
          simp only [Bool.false_eq_true, if_false]
          have hne : (llm s.messages).2.isEmpty = false := by
            rcases hx : (llm s.messages).2 with _ | ⟨a, l⟩
            · exact absurd hx (hllm s.messages).1
            · rfl
          rw [hne]
          rfl
        have hexec : _execute_tools_node tools (_generate_node max_iterations llm s)
            = { messages := s.messages
                  ++ ([.ai (llm s.messages).1 (llm s.messages).2]
                      ++ run_tool_calls tools (llm s.messages).2),
                iteration_count := s.iteration_count + 1 } := by
          unfold _execute_tools_node
          rw [hgen]
          simp only [List.getLast?_concat, List.append_assoc]
        simp only [agent_loop]
        rw [if_pos hsc, hexec]
        obtain ⟨hcount, tail, hmsgs, htail⟩ := ih
          { messages := s.messages
              ++ ([.ai (llm s.messages).1 (llm s.messages).2]
                  ++ run_tool_calls tools (llm s.messages).2),
            iteration_count := s.iteration_count + 1 }
          (by show s.iteration_count + 1 < max_iterations; omega)
          (by show max_iterations ≤ s.iteration_count + 1 + fuel; omega)
        refine ⟨hcount, [.ai (llm s.messages).1 (llm s.messages).2]
            ++ run_tool_calls tools (llm s.messages).2 ++ tail, ?_, ?_⟩
        · rw [hmsgs]
          simp
        · intro m hm
          rcases List.mem_append.mp hm with hm1 | hm2
          · rcases List.mem_append.mp hm1 with hm1a | hm1b
            · rcases List.mem_singleton.mp hm1a with rfl
              simpa [ai_with_solution] using (hllm s.messages).2
            · exact run_tool_calls_no_ai tools _ m hm1b
          · exact htail m hm2

/-- C1 (amended).  With a reasoning engine that always returns tool calls
and never a solution marker, the run ends with the iteration counter — the
number of reasoning-engine calls — exactly at the configured maximum,
without the engine being called again; termination happens through the
budget check of `_should_continue`, and no solution-marked synthetic
assistant message is appended anywhere in the transcript. -/
theorem C1_budget_termination (max_iterations : Nat)
    (llm : List Message → String × List ToolCall) (tools : ToolRegistry)
    (init_messages : List Message)
    (hmax : 1 ≤ max_iterations)
    (hllm : ∀ ms, (llm ms).2 ≠ [] ∧ has_solution_marker (llm ms).1 = false) :
    (agent_run max_iterations llm tools init_messages).iteration_count
      = max_iterations ∧
    ∃ tail, (agent_run max_iterations llm tools init_messages).messages
        = init_messages ++ tail ∧ ∀ m ∈ tail, ai_with_solution m = false := by
  unfold agent_run
  exact agent_loop_budget max_iterations llm tools hllm (max_iterations + 1)
    { messages := init_messages, iteration_count := 0 }
    (by show 0 < max_iterations; omega)
    (by show max_iterations ≤ 0 + (max_iterations + 1); omega)

/-- A reasoning engine that always requests one `execute_python` call and
never emits a solution marker. -/
def c1_llm : List Message → String × List ToolCall :=
  fun _ => ("Let me inspect the data first.",
    [⟨"call_1", "execute_python", [("code", "print(1)")]⟩])

/-- A registry holding only the `execute_python` tool. -/
def c1_tools : ToolRegistry :=
  [("execute_python", fun _ => .ok "Output:\n1")]

/-- Counterexample to C1 as stated: with `max_iterations = 1` and an engine
that always requests tool calls, the run stops with the counter at the
maximum but the transcript ends with the engine's own response — no
synthetic solution-marked assistant message is ever appended. -/
theorem C1_counterexample :
    (agent_run 1 c1_llm c1_tools [.system "sys", .human "task"]).iteration_count
      = 1 ∧
    (agent_run 1 c1_llm c1_tools [.system "sys", .human "task"]).messages
      = [.system "sys", .human "task",
         .ai "Let me inspect the data first."
           [⟨"call_1", "execute_python", [("code", "print(1)")]⟩]] ∧
    (agent_run 1 c1_llm c1_tools
        [.system "sys", .human "task"]).messages.all
      (fun m => !ai_with_solution m) = true := by
  refine ⟨rfl, rfl, by decide⟩

/-- The C1 engine always returns a tool call and never a solution marker. -/
theorem c1_llm_spec :
    ∀ ms, (c1_llm ms).2 ≠ [] ∧ has_solution_marker (c1_llm ms).1 = false := by
  intro ms
  constructor
  · show ([⟨"call_1", "execute_python", [("code", "print(1)")]⟩] : List ToolCall) ≠ []
    decide
  · show has_solution_marker "Let me inspect the data first." = false
    decide

/-- Witness for the amended C1 at a concrete two-iteration run. -/
theorem C1_witness :
    (agent_run 2 c1_llm c1_tools [.system "sys", .human "task"]).iteration_count
      = 2 ∧
    ∃ tail, (agent_run 2 c1_llm c1_tools [.system "sys", .human "task"]).messages
        = [.system "sys", .human "task"] ++ tail ∧
        ∀ m ∈ tail, ai_with_solution m = false :=
  C1_budget_termination 2 c1_llm c1_tools [.system "sys", .human "task"]
    (by omega) c1_llm_spec

/-- C2.  Out of `generate`, the loop terminates iff the budget is exhausted,
or the latest assistant message carries a solution marker (case-insensitive
substring test), or it carries no tool calls; and an engine returning no
tool calls and no marker ends the run after exactly one generate
iteration. -/
theorem C2_generate_transition :
    (∀ (max_iterations : Nat) (s : AgentState) (content : String)
        (tool_calls : List ToolCall),
        s.messages.getLast? = some (.ai content tool_calls) →
        (_should_continue max_iterations s = false ↔
          (max_iterations ≤ s.iteration_count ∨
            has_solution_marker content = true ∨ tool_calls = []))) ∧
    (∀ (llm : List Message → String × List ToolCall) (tools : ToolRegistry)
        (max_iterations : Nat) (init_messages : List Message),
        (∀ ms, (llm ms).2 = [] ∧ has_solution_marker (llm ms).1 = false) →
        1 ≤ max_iterations →
        (agent_run max_iterations llm tools init_messages).iteration_count = 1 ∧
        (agent_run max_iterations llm tools init_messages).messages
          = init_messages ++ [.ai (llm init_messages).1 (llm init_messages).2]) := by
  constructor
  · intro max_iterations s content tool_calls hlast
    unfold _should_continue
    rw [hlast]
    by_cases hb : max_iterations ≤ s.iteration_count
    · simp [hb]
    · rw [if_neg (by simpa using hb)]
      by_cases hm : has_solution_marker content
      · simp [hm, hb]
      · simp [hm, hb, List.isEmpty_iff]
  · intro llm tools max_iterations init_messages hllm hmax
    have hgen : _generate_node max_iterations llm
        { messages := init_messages, iteration_count := 0 }
        = { messages := init_messages
              ++ [.ai (llm init_messages).1 (llm init_messages).2],
            iteration_count := 1 } := by
      unfold _generate_node
      rw [if_neg (by show ¬ max_iterations ≤ 0; omega)]
    have hsc : _should_continue max_iterations
        (_generate_node max_iterations llm
          { messages := init_messages, iteration_count := 0 }) = false := by
      unfold _should_continue
      rw [hgen]
      by_cases hb : max_iterations ≤ 1
      · exact if_pos (by simpa using hb)
      · rw [if_neg (by simpa using hb)]
        rw [List.getLast?_concat]
        show (if has_solution_marker (llm init_messages).1 = true then false
          else !(llm init_messages).2.isEmpty) = false
        rw [(hllm init_messages).2]
        simp only [Bool.false_eq_true, if_false]
        rw [(hllm init_messages).1]
        rfl
    unfold agent_run
    rcases hfuel : max_iterations + 1 with _ | fuel
    · omega
    · simp only [agent_loop]
      rw [if_neg (by simp [hsc]), hgen]
      exact ⟨rfl, rfl⟩

/-- A reasoning engine that answers in plain text with no tool calls. -/
def c2_llm : List Message → String × List ToolCall :=
  fun _ => ("The data is too small to model.", [])

/-- The C2 engine never returns tool calls and never a solution marker. -/
theorem c2_llm_spec :
    ∀ ms, (c2_llm ms).2 = [] ∧ has_solution_marker (c2_llm ms).1 = false := by
  intro ms
  constructor
  · rfl
  · show has_solution_marker "The data is too small to model." = false
    decide

/-- Witness for C2: the transition test at a concrete state, and a concrete
run ending after exactly one generate iteration. -/
theorem C2_witness :
    _should_continue 3 { messages := [.ai "no tools requested" []],
                         iteration_count := 1 } = false ∧
    (agent_run 3 c2_llm c1_tools [.system "sys", .human "task"]).iteration_count
      = 1 ∧
    (agent_run 3 c2_llm c1_tools [.system "sys", .human "task"]).messages
      = [.system "sys", .human "task",
         .ai "The data is too small to model." []] := by
  refine ⟨?_, ?_, ?_⟩
  · exact (C2_generate_transition.1 3
      { messages := [.ai "no tools requested" []], iteration_count := 1 }
      "no tools requested" [] rfl).2 (Or.inr (Or.inr rfl))
  · exact (C2_generate_transition.2 c2_llm c1_tools 3
      [.system "sys", .human "task"] c2_llm_spec (by omega)).1
  · exact (C2_generate_transition.2 c2_llm c1_tools 3
      [.system "sys", .human "task"] c2_llm_spec (by omega)).2

/-- C8 (amended).  Dispatch handles each ActionRequest independently: a
known tool that raises is converted into a ToolMessage stating the error
and its siblings are still dispatched; a known tool that returns yields its
result as a ToolMessage; an ActionRequest whose name is missing from the
registry is silently skipped — it yields no ToolResult at all — and exactly
the registered requests produce messages. -/
theorem C8_dispatch_behaviour :
    (∀ (tools : ToolRegistry) (tc : ToolCall) (rest : List ToolCall)
        (f : List (String × String) → Except String String) (e : String),
        tool_map_lookup tools tc.name = some f → f tc.args = .error e →
        run_tool_calls tools (tc :: rest)
          = Message.tool ("Error executing " ++ tc.name ++ ": " ++ e)
              tc.id tc.name :: run_tool_calls tools rest) ∧
    (∀ (tools : ToolRegistry) (tc : ToolCall) (rest : List ToolCall)
        (f : List (String × String) → Except String String) (r : String),
        tool_map_lookup tools tc.name = some f → f tc.args = .ok r →
        run_tool_calls tools (tc :: rest)
          = Message.tool r tc.id tc.name :: run_tool_calls tools rest) ∧
    (∀ (tools : ToolRegistry) (tc : ToolCall) (rest : List ToolCall),
        tool_map_lookup tools tc.name = none →
        run_tool_calls tools (tc :: rest) = run_tool_calls tools rest) ∧
    (∀ (tools : ToolRegistry) (tcs : List ToolCall),
        (run_tool_calls tools tcs).length
          = (tcs.filter
              (fun tc => (tool_map_lookup tools tc.name).isSome)).length) := by
  refine ⟨?_, ?_, ?_, ?_⟩
  · intro tools tc rest f e h1 h2
    simp only [run_tool_calls, h1, h2, tool_result_message]
  · intro tools tc rest f r h1 h2
    simp only [run_tool_calls, h1, h2, tool_result_message]
  · intro tools tc rest h1
    simp only [run_tool_calls, h1]
  · intro tools tcs
    induction tcs with
    | nil => rfl
    | cons tc rest ih =>
        simp only [run_tool_calls, List.filter]
        cases hlook : tool_map_lookup tools tc.name with
        | none => simpa [hlook] using ih
        | some f => simpa [hlook] using ih

/-- A registry with one failing and one succeeding tool. -/
def c8_tools : ToolRegistry :=
  [("execute_python", fun _ => .error "boom"),
   ("dataset_info", fun _ => .ok "Shape: 3 rows x 2 columns")]

/-- Counterexample to C8 as stated: an ActionRequest naming a tool not in
the registry yields no ToolResult — it is dropped, not answered. -/
theorem C8_counterexample :
    run_tool_calls c8_tools [⟨"call_9", "unknown_tool", []⟩] = [] := rfl

/-- Witness for the amended C8: a raising tool is converted to an error
ToolMessage and its sibling still runs; an unknown name is skipped while
its sibling still runs. -/
theorem C8_witness :
    run_tool_calls c8_tools
        [⟨"call_1", "execute_python", []⟩, ⟨"call_2", "dataset_info", []⟩]
      = [.tool "Error executing execute_python: boom" "call_1" "execute_python",
         .tool "Shape: 3 rows x 2 columns" "call_2" "dataset_info"] ∧
    run_tool_calls c8_tools
        [⟨"call_3", "missing_tool", []⟩, ⟨"call_4", "dataset_info", []⟩]
      = [.tool "Shape: 3 rows x 2 columns" "call_4" "dataset_info"] := by
  constructor
  · rw [C8_dispatch_behaviour.1 c8_tools ⟨"call_1", "execute_python", []⟩ _ _
      "boom" rfl rfl]
    rw [C8_dispatch_behaviour.2.1 c8_tools ⟨"call_2", "dataset_info", []⟩ _ _
      "Shape: 3 rows x 2 columns" rfl rfl]
    rfl
  · rw [C8_dispatch_behaviour.2.2.1 c8_tools ⟨"call_3", "missing_tool", []⟩ _ rfl]
    rw [C8_dispatch_behaviour.2.1 c8_tools ⟨"call_4", "dataset_info", []⟩ _ _
      "Shape: 3 rows x 2 columns" rfl rfl]
    rfl

/-! ## Tag/Action Extractor (`backend/ml_engineer/tag_parser.py`)

`extract_tagged_blocks` applies the compiled pattern
`<(?P<tag>[a-zA-Z0-9_]+)>(?P<body>.*?)</\s*(?P=tag)\s*>` (with `re.DOTALL`)
via `finditer` to the already-coerced message text and returns the ordered
`(tag.strip().lower(), body.strip())` pairs.  The embedding implements the
engine's behaviour on this specific pattern: scan start positions left to
right; at a start position the open marker fixes the tag as the maximal run
of word characters followed by `>`, the lazy body stops at the earliest
position where the close marker `</`, optional whitespace, the exact
captured tag text, optional whitespace, `>` parses, and scanning resumes
after each match.  The backreference `(?P=tag)` matches the captured text
exactly — the pattern is compiled without `re.IGNORECASE`. -/

/-- The regex word-character class `[a-zA-Z0-9_]`. -/
def is_tag_char (c : Char) : Bool :=
  c.isAlphanum || c == '_'

/-- Parse the close marker `</\s*tag\s*>` at the head of `s`, returning the
remainder after it. -/
def close_at (tag : List Char) (s : List Char) : Option (List Char) :=
  match s with
  | c0 :: c1 :: s1 =>
      if c0 = '<' ∧ c1 = '/' then
        let s2 := s1.dropWhile py_isspace
        if tag.isPrefixOf s2 then
          let s3 := (s2.drop tag.length).dropWhile py_isspace
          if s3.head? = some '>' then some s3.tail else none
        else none
      else none
  | _ => none

/-- Lazy body search: the body ends at the earliest position where the close
marker parses; returns `(body, remainder after the close)`. -/
def find_close (tag : List Char) : List Char → Option (List Char × List Char)
  | [] => none
  | c :: cs =>
      match close_at tag (c :: cs) with
      | some rest => some ([], rest)
      | none =>
          match find_close tag cs with
          | some (body, rest) => some (c :: body, rest)
          | none => none

/-- Try the whole pattern at the current position: `<`, a nonempty maximal
run of word characters, `>`, then the lazy body and matching close marker. -/
def match_at (s : List Char) : Option (List Char × List Char × List Char) :=
  match s with
  | [] => none
  | c :: s1 =>
      if c = '<' then
        let tag := s1.takeWhile is_tag_char
        if tag.isEmpty then none
        else if (s1.drop tag.length).head? = some '>' then
          match find_close tag (s1.drop tag.length).tail with
          | some (body, rest) => some (tag, body, rest)
          | none => none
        else none
      else none

/-- `finditer`: scan start positions left to right, resuming after each
match.  Fuel-structured; one unit of fuel is spent per position or match, so
fuel equal to the input length is always sufficient. -/
def find_iter_fuel : Nat → List Char → List (List Char × List Char)
  | 0, _ => []
  | _ + 1, [] => []
  | fuel + 1, c :: cs =>
      match match_at (c :: cs) with
      | some (tag, body, rest) => (tag, body) :: find_iter_fuel fuel rest
      | none => find_iter_fuel fuel cs

/-- All matches of the tag pattern, in order. -/
def find_iter (s : List Char) : List (List Char × List Char) :=
  find_iter_fuel s.length s

/-- `extract_tagged_blocks`: ordered `(tag.strip().lower(), body.strip())`
pairs of the matches.  (The guard `if not tag or body is None: continue`
never fires: the pattern guarantees a nonempty tag and a present body.) -/
def extract_tagged_blocks (content : List Char) : List (List Char × List Char) :=
  (find_iter content).map (fun p => (py_lower (py_strip p.1), py_strip p.2))

/-- The claim's reading of a block: open and close markers whose labels
agree case-insensitively enclose the body. -/
def ci_enclosed (label body s : List Char) : Prop :=
  ∃ topen tclose : List Char,
    s = '<' :: (topen ++ ('>' :: (body ++ ('<' :: '/' :: (tclose ++ ['>']))))) ∧
    py_lower topen = label ∧ py_lower tclose = label

/-! ## Extractor lemmas and claim theorems -/

/-- Word characters are not whitespace. -/
theorem is_tag_char_not_space (c : Char) (h : is_tag_char c = true) :
    py_isspace c = false := by
  cases hs : py_isspace c
  · rfl
  · exfalso
    unfold py_isspace at hs
    simp only [Bool.or_eq_true, beq_iff_eq] at hs
    rcases hs with ((((h1 | h2) | h3) | h4) | h5) | h6
    · subst h1; exact absurd h (by decide)
    · subst h2; exact absurd h (by decide)
    · subst h3; exact absurd h (by decide)
    · subst h4; exact absurd h (by decide)
    · subst h5; exact absurd h (by decide)
    · subst h6; exact absurd h (by decide)

/-- Lists of non-whitespace characters pass `dropWhile py_isspace`
unchanged. -/
theorem dropWhile_isspace_eq_self (l : List Char)
    (h : ∀ c ∈ l, py_isspace c = false) : l.dropWhile py_isspace = l := by
  cases l with
  | nil => rfl
  | cons a l =>
      rw [List.dropWhile_cons, h a (List.mem_cons_self a l)]
      simp

/-- Lists of non-whitespace characters are unchanged by `strip`. -/
theorem py_strip_eq_self (l : List Char) (h : ∀ c ∈ l, py_isspace c = false) :
    py_strip l = l := by
  unfold py_strip
  rw [dropWhile_isspace_eq_self l h]
  rw [dropWhile_isspace_eq_self l.reverse (by
    intro c hc
    exact h c (List.mem_reverse.mp hc))]
  exact List.reverse_reverse l

/-- `takeWhile` over a word-character run stopped by `>`. -/
theorem takeWhile_tag (tag rest : List Char)
    (h : ∀ c ∈ tag, is_tag_char c = true) :
    (tag ++ '>' :: rest).takeWhile is_tag_char = tag := by
  induction tag with
  | nil =>
      rw [List.nil_append, List.takeWhile_cons]
      rw [if_neg (by decide)]
  | cons t ts ih =>
      rw [List.cons_append, List.takeWhile_cons,
        h t (List.mem_cons_self t ts)]
      rw [ih (fun c hc => h c (List.mem_cons_of_mem t hc))]
      rw [if_pos rfl]

/-- Unfolding the head test of `substr_in`. -/
theorem substr_in_cons (x : List Char) (c : Char) (cs : List Char) :
    substr_in x (c :: cs) = (x.isPrefixOf (c :: cs) || substr_in x cs) := by
  unfold substr_in
  rw [List.tails_cons, List.any_cons]

/-- The close marker parses exactly at `</tag>`. -/
theorem close_at_exact (tag : List Char)
    (htag : ∀ c ∈ tag, is_tag_char c = true) :
    close_at tag ('<' :: '/' :: (tag ++ ['>'])) = some [] := by
  have hd : (tag ++ ['>']).dropWhile py_isspace = tag ++ ['>'] := by
    apply dropWhile_isspace_eq_self
    intro c hc
    rcases List.mem_append.mp hc with hc1 | hc2
    · exact is_tag_char_not_space c (htag c hc1)
    · rcases List.mem_singleton.mp hc2 with rfl
      rfl
  simp only [close_at]
  rw [if_pos ⟨trivial, trivial⟩, hd]
  rw [if_pos (List.isPrefixOf_iff_prefix.mpr ⟨['>'], rfl⟩)]
  rw [List.drop_left tag ['>']]
  rfl

/-- The close marker fails to parse anywhere strictly inside a body that
contains no `</`. -/
theorem find_close_exact (tag : List Char)
    (htag : ∀ c ∈ tag, is_tag_char c = true) :
    ∀ body : List Char, substr_in ['<', '/'] body = false →
      find_close tag (body ++ ('<' :: '/' :: (tag ++ ['>']))) = some (body, []) := by
  intro body
  induction body with
  | nil =>
      intro _
      show find_close tag ('<' :: '/' :: (tag ++ ['>'])) = some ([], [])
      rw [find_close]
      rw [close_at_exact tag htag]
  | cons c cs ih =>
      intro hbody
      rw [substr_in_cons] at hbody
      rcases Bool.or_eq_false_iff.mp hbody with ⟨hpre, hcs⟩
      rw [List.cons_append, find_close]
      have hfail : close_at tag (c :: (cs ++ ('<' :: '/' :: (tag ++ ['>'])))) = none := by
        cases cs with
        | nil =>
            rw [List.nil_append]
            simp only [close_at]
            exact if_neg (by rintro ⟨-, h⟩; exact absurd h (by decide))
        | cons c2 cs2 =>
            rw [List.cons_append]
            simp only [close_at]
            refine if_neg ?_
            rintro ⟨rfl, rfl⟩
            rw [show List.isPrefixOf ['<', '/'] ('<' :: '/' :: cs2) = true from
              List.isPrefixOf_iff_prefix.mpr ⟨cs2, rfl⟩] at hpre
            exact absurd hpre (by decide)
      rw [hfail, ih hcs]

/-- The whole pattern matches a well-formed block exactly, consuming it. -/
theorem match_at_exact (tag body : List Char) (htag_ne : tag ≠ [])
    (htag : ∀ c ∈ tag, is_tag_char c = true)
    (hbody : substr_in ['<', '/'] body = false) :
    match_at ('<' :: (tag ++ ('>' :: (body ++ ('<' :: '/' :: (tag ++ ['>']))))))
      = some (tag, body, []) := by
  simp only [match_at]
  rw [if_pos trivial]
  rw [takeWhile_tag tag _ htag]
  rw [if_neg (by simpa [List.isEmpty_iff] using htag_ne)]
  rw [List.drop_left tag ('>' :: (body ++ ('<' :: '/' :: (tag ++ ['>']))))]
  rw [List.head?_cons, List.tail_cons]
  rw [if_pos rfl]
  rw [find_close_exact tag htag body hbody]

/-- Spent fuel on an empty remainder yields no further matches. -/
theorem find_iter_fuel_nil (fuel : Nat) : find_iter_fuel fuel [] = [] := by
  cases fuel <;> rfl

/-- C7 (amended).  A labelled section is extracted whenever open and close
markers with exactly matching label text enclose a body — the backreference
is case-sensitive, and the matched label is lowercased only in the output;
the spec's example extracts plan = "A" and think = "B"; unterminated
markers, and open/close markers whose labels differ only by case, yield no
match (and the extractor, a total function, never raises). -/
theorem C7_extractor_exact_match :
    (∀ tag body : List Char, tag ≠ [] →
        (∀ c ∈ tag, is_tag_char c = true) →
        substr_in ['<', '/'] body = false →
        extract_tagged_blocks
            ('<' :: (tag ++ ('>' :: (body ++ ('<' :: '/' :: (tag ++ ['>']))))))
          = [(py_lower tag, py_strip body)]) ∧
    extract_tagged_blocks "<plan>A</plan><think>B</think>".toList
      = [("plan".toList, "A".toList), ("think".toList, "B".toList)] ∧
    extract_tagged_blocks "<plan>A".toList = [] ∧
    extract_tagged_blocks "<Plan>A</plan>".toList = [] := by
  refine ⟨?_, by decide, by decide, by decide⟩
  intro tag body htag_ne htag hbody
  unfold extract_tagged_blocks find_iter
  rw [show ('<' :: (tag ++ ('>' :: (body ++ ('<' :: '/' :: (tag ++ ['>'])))))).length
    = (tag ++ ('>' :: (body ++ ('<' :: '/' :: (tag ++ ['>']))))).length + 1
    from List.length_cons _ _]
  rw [show find_iter_fuel
      ((tag ++ ('>' :: (body ++ ('<' :: '/' :: (tag ++ ['>']))))).length + 1)
      ('<' :: (tag ++ ('>' :: (body ++ ('<' :: '/' :: (tag ++ ['>']))))))
    = (tag, body)
        :: find_iter_fuel
          (tag ++ ('>' :: (body ++ ('<' :: '/' :: (tag ++ ['>']))))).length []
    by rw [find_iter_fuel, match_at_exact tag body htag_ne htag hbody]]
  rw [find_iter_fuel_nil]
  rw [List.map_singleton]
  rw [py_strip_eq_self tag (fun c hc => is_tag_char_not_space c (htag c hc))]

/-- Counterexample to C7 as stated: markers whose labels agree only
case-insensitively (`<Plan>…</plan>`) are claimed to form a block, but the
extractor — whose backreference is case-sensitive — extracts nothing. -/
theorem C7_counterexample :
    ¬ (∀ s label body : List Char, ci_enclosed label body s →
        (label, py_strip body) ∈ extract_tagged_blocks s) := by
  intro hclaim
  have h := hclaim "<Plan>hello</plan>".toList "plan".toList "hello".toList
    ⟨"Plan".toList, "plan".toList, by decide, by decide, by decide⟩
  revert h
  decide

/-- Witness for the amended C7 at a concrete block with an uppercase tag. -/
theorem C7_witness :
    extract_tagged_blocks
        ('<' :: ("THINK".toList ++ ('>' :: ("step one".toList
          ++ ('<' :: '/' :: ("THINK".toList ++ ['>']))))))
      = [(py_lower "THINK".toList, py_strip "step one".toList)] :=
  C7_extractor_exact_match.1 "THINK".toList "step one".toList
    (by decide) (by decide) (by decide)

/-! ## Session & Event Bus (`backend/server.py`)

`SessionState.broadcast` appends each event to `event_history` and puts it
on every subscribed queue; the websocket handler `session_events` subscribes
first, then replays `event_history` by Python list-iterator semantics (an
index check against the current length before every send), then drains its
queue forever.  Each `await` (queue put, `send_json`, queue get) is a
suspension point of the cooperative event loop, so producer broadcasts may
interleave anywhere between subscriber steps.  The embedding is a step
relation driven by an explicit schedule: `broadcast` emits the next pending
event of the run, `replay` performs one iterator step of the history loop
(sending one event or exiting the loop), and `drain` delivers one queued
event once the replay loop has exited.  The subscriber joins at `bus_init`:
`h0` is the history already broadcast before it subscribed, `pending` the
events the run will still broadcast. -/

/-- Joint state of one session's producer and one subscriber. -/
structure BusState (α : Type) where
  event_history : List α
  pending : List α
  queue : List α
  replay_idx : Nat
  replay_done : Bool
  delivered : List α
deriving DecidableEq, Repr

/-- One scheduler choice: run the producer or one subscriber step. -/
inductive BusStep where
  | broadcast
  | replay
  | drain
deriving DecidableEq, Repr

/-- The transition function; inapplicable steps leave the state unchanged. -/
def bus_step {α : Type} (st : BusState α) : BusStep → BusState α
  | .broadcast =>
      match st.pending with
      | [] => st
      | e :: rest =>
          { st with event_history := st.event_history ++ [e],
                    queue := st.queue ++ [e], pending := rest }
  | .replay =>
      if st.replay_done then st
      else
        match st.event_history[st.replay_idx]? with
        | some e =>
            { st with delivered := st.delivered ++ [e],
                      replay_idx := st.replay_idx + 1 }
        | none => { st with replay_done := true }
  | .drain =>
      if st.replay_done then
        match st.queue with
        | [] => st
        | e :: rest => { st with delivered := st.delivered ++ [e], queue := rest }
      else st

/-- Run a schedule. -/
def bus_run {α : Type} (st : BusState α) (steps : List BusStep) : BusState α :=
  steps.foldl bus_step st

/-- State at subscription time: `h0` already broadcast, `pending` still to
come, the fresh queue empty, the replay loop at the start. -/
def bus_init {α : Type} (h0 pending : List α) : BusState α :=
  { event_history := h0, pending := pending, queue := [],
    replay_idx := 0, replay_done := false, delivered := [] }

/-- The run has broadcast everything, the replay loop has exited, and the
queue has been drained. -/
def bus_quiescent {α : Type} (st : BusState α) : Prop :=
  st.pending = [] ∧ st.replay_done = true ∧ st.queue = []

/-! ## Event Bus lemmas and claim theorems -/

/-- Reachability invariant of the bus: `k` events have been broadcast since
subscription and `d` of them drained from the queue. -/
def bus_inv {α : Type} (h0 p0 : List α) (st : BusState α) : Prop :=
  ∃ k d : Nat,
    k ≤ p0.length ∧ d ≤ k ∧
    st.pending = p0.drop k ∧
    st.event_history = h0 ++ p0.take k ∧
    st.queue = (p0.take k).drop d ∧
    st.replay_idx ≤ h0.length + k ∧
    st.delivered = (h0 ++ p0).take st.replay_idx ++ p0.take d ∧
    (st.replay_done = false → d = 0) ∧
    (st.replay_done = true → h0.length ≤ st.replay_idx)

/-- A successful lookup in a list stays successful after appending. -/
theorem getElem?_append_some {α : Type} (l₁ l₂ : List α) (i : Nat) (x : α)
    (h : l₁[i]? = some x) : (l₁ ++ l₂)[i]? = some x := by
  have hi : i < l₁.length := by
    by_contra hge
    push_neg at hge
    rw [List.getElem?_eq_none hge] at h
    cases h
  rw [List.getElem?_append_left hi]
  exact h

/-- The head exposed by `drop` is the element at that index. -/
theorem getElem?_of_drop_cons {α : Type} (l : List α) (d : Nat) (e : α)
    (rest : List α) (h : l.drop d = e :: rest) : l[d]? = some e := by
  have h1 : (l.drop d)[0]? = some e := by rw [h]; simp
  rw [List.getElem?_drop] at h1
  simpa using h1

/-- `take (k+1)` appends the element exposed by `drop k`. -/
theorem take_succ_of_drop {α : Type} (l : List α) (k : Nat) (e : α)
    (rest : List α) (h : l.drop k = e :: rest) : l.take (k + 1) = l.take k ++ [e] := by
  rw [List.take_succ, getElem?_of_drop_cons l k e rest h]
  rfl

/-- The invariant holds at subscription time. -/
theorem bus_inv_init {α : Type} (h0 p0 : List α) :
    bus_inv h0 p0 (bus_init h0 p0) := by
  refine ⟨0, 0, Nat.zero_le _, Nat.le_refl 0, rfl, by simp [bus_init],
    by simp [bus_init], by simp [bus_init], by simp [bus_init],
    fun _ => rfl, by simp [bus_init]⟩

/-- The invariant is preserved by every scheduler step. -/
theorem bus_inv_step {α : Type} (h0 p0 : List α) (st : BusState α)
    (hinv : bus_inv h0 p0 st) (step : BusStep) :
    bus_inv h0 p0 (bus_step st step) := by
  obtain ⟨k, d, hk, hd, hpend, hhist, hqueue, hidx, hdel, hnd, hdo⟩ := hinv
  cases step with
  | broadcast =>
      rcases hp : st.pending with _ | ⟨e, rest⟩
      · rw [show bus_step st .broadcast = st by simp only [bus_step, hp]]
        exact ⟨k, d, hk, hd, hpend, hhist, hqueue, hidx, hdel, hnd, hdo⟩
      · rw [show bus_step st .broadcast
            = { st with event_history := st.event_history ++ [e],
                        queue := st.queue ++ [e], pending := rest }
          by simp only [bus_step, hp]]
        rw [hpend] at hp
        have hklen : k < p0.length := by
          by_contra hge
          push_neg at hge
          rw [List.drop_eq_nil_of_le hge] at hp
          cases hp
        have htake : p0.take (k + 1) = p0.take k ++ [e] :=
          take_succ_of_drop p0 k e rest hp
        have hrest : p0.drop (k + 1) = rest := by
          have h1 : (p0.drop k).drop 1 = rest := by rw [hp]; rfl
          rw [List.drop_drop] at h1
          exact h1
        have hq2 : ((p0.take k) ++ [e]).drop d = (p0.take k).drop d ++ [e] := by
          rw [List.drop_append_eq_append_drop, List.length_take,
            Nat.min_eq_left hk, Nat.sub_eq_zero_of_le hd, List.drop_zero]
        refine ⟨k + 1, d, hklen, Nat.le_succ_of_le hd, hrest.symm, ?_, ?_,
          Nat.le_succ_of_le hidx, hdel, hnd, hdo⟩
        · show st.event_history ++ [e] = h0 ++ p0.take (k + 1)
          rw [hhist, htake, List.append_assoc]
        · show st.queue ++ [e] = (p0.take (k + 1)).drop d
          rw [hqueue, htake, hq2]
  | replay =>
      by_cases hdone : st.replay_done = true
      · rw [show bus_step st .replay = st by simp only [bus_step, if_pos hdone]]
        exact ⟨k, d, hk, hd, hpend, hhist, hqueue, hidx, hdel, hnd, hdo⟩
      · have hd0 : d = 0 := hnd (Bool.eq_false_iff.mpr hdone)
        rcases hget : st.event_history[st.replay_idx]? with _ | e
        · rw [show bus_step st .replay = { st with replay_done := true }
            by simp only [bus_step, if_neg hdone, hget]]
          refine ⟨k, d, hk, hd, hpend, hhist, hqueue, hidx, hdel,
            fun _ => hd0, fun _ => ?_⟩
          show h0.length ≤ st.replay_idx
          rw [hhist] at hget
          have h2 := List.getElem?_eq_none_iff.mp hget
          rw [List.length_append, List.length_take, Nat.min_eq_left hk] at h2
          omega
        · rw [show bus_step st .replay
              = { st with delivered := st.delivered ++ [e],
                          replay_idx := st.replay_idx + 1 }
            by simp only [bus_step, if_neg hdone, hget]]
          have hbound : st.replay_idx < h0.length + k := by
            rw [hhist] at hget
            obtain ⟨hb, -⟩ := List.getElem?_eq_some.mp hget
            rw [List.length_append, List.length_take, Nat.min_eq_left hk] at hb
            exact hb
          have hget2 : (h0 ++ p0)[st.replay_idx]? = some e := by
            have hsplit : (h0 ++ p0.take k) ++ p0.drop k = h0 ++ p0 := by
              rw [List.append_assoc, List.take_append_drop]
            rw [← hsplit]
            exact getElem?_append_some _ _ _ _ (by rw [← hhist]; exact hget)
          refine ⟨k, d, hk, hd, hpend, hhist, hqueue, hbound, ?_,
            fun _ => hd0, fun hcontra => absurd hcontra hdone⟩
          show st.delivered ++ [e]
            = (h0 ++ p0).take (st.replay_idx + 1) ++ p0.take d
          rw [hdel, hd0, List.take_succ, hget2]
          simp
  | drain =>
      by_cases hdone : st.replay_done = true
      · rcases hq : st.queue with _ | ⟨e, rest⟩
        · rw [show bus_step st .drain = st
            by simp only [bus_step, if_pos hdone, hq]]
          exact ⟨k, d, hk, hd, hpend, hhist, hqueue, hidx, hdel, hnd, hdo⟩
        · rw [show bus_step st .drain
              = { st with delivered := st.delivered ++ [e], queue := rest }
            by simp only [bus_step, if_pos hdone, hq]]
          rw [hqueue] at hq
          have hdk : d < (p0.take k).length := by
            by_contra hge
            push_neg at hge
            rw [List.drop_eq_nil_of_le hge] at hq
            cases hq
          have hdk2 : d < k := by
            rw [List.length_take] at hdk
            omega
          have hgetd : p0[d]? = some e := by
            have h1 := getElem?_of_drop_cons (p0.take k) d e rest hq
            rw [List.getElem?_take, if_pos hdk2] at h1
            exact h1
          have htaked : p0.take (d + 1) = p0.take d ++ [e] := by
            rw [List.take_succ, hgetd]
            rfl
          have hrest : (p0.take k).drop (d + 1) = rest := by
            have h1 : ((p0.take k).drop d).drop 1 = rest := by rw [hq]; rfl
            rw [List.drop_drop] at h1
            exact h1
          refine ⟨k, d + 1, hk, hdk2, hpend, hhist, hrest.symm, hidx, ?_,
            fun hf => absurd hdone (by rw [hf]; exact Bool.false_ne_true), hdo⟩
          show st.delivered ++ [e]
            = (h0 ++ p0).take st.replay_idx ++ p0.take (d + 1)
          rw [hdel, htaked, List.append_assoc]
      · rw [show bus_step st .drain = st by simp only [bus_step, if_neg hdone]]
        exact ⟨k, d, hk, hd, hpend, hhist, hqueue, hidx, hdel, hnd, hdo⟩


/-- The invariant holds after any schedule from subscription. -/
theorem bus_inv_run {α : Type} (h0 p0 : List α) (steps : List BusStep) :
    bus_inv h0 p0 (bus_run (bus_init h0 p0) steps) := by
  suffices h : ∀ st, bus_inv h0 p0 st → bus_inv h0 p0 (steps.foldl bus_step st) from
    h _ (bus_inv_init h0 p0)
  induction steps with
  | nil => exact fun st h => h
  | cons a steps ih => exact fun st h => ih _ (bus_inv_step h0 p0 st h a)

/-- C9 (amended).  For every interleaving of the producer with a subscriber
that joins when `h0` has already been broadcast, once the run has finished
and the subscriber has drained its queue, the delivered sequence is exactly
`h0 ++ p0.take m ++ p0` for some `m`: the pre-subscription history arrives
first and exactly once, order is preserved, no event is lost — but the
first `m` post-subscription events (those broadcast before the replay loop
exited) are delivered twice, once by the history replay and once from the
queue. -/
theorem C9_replay_then_queue {α : Type} (h0 p0 : List α) (steps : List BusStep)
    (hq : bus_quiescent (bus_run (bus_init h0 p0) steps)) :
    ∃ m ≤ p0.length,
      (bus_run (bus_init h0 p0) steps).delivered = h0 ++ (p0.take m ++ p0) := by
  obtain ⟨k, d, hk, hd, hpend, hhist, hqueue, hidx, hdel, hnd, hdo⟩ :=
    bus_inv_run h0 p0 steps
  obtain ⟨hqp, hqdone, hqq⟩ := hq
  have hkeq : k = p0.length := by
    rw [hpend] at hqp
    have := List.drop_eq_nil_iff.mp hqp
    omega
  have hdeq : d = p0.length := by
    rw [hqueue, hkeq, List.take_length] at hqq
    have := List.drop_eq_nil_iff.mp hqq
    omega
  have hr1 : h0.length ≤ (bus_run (bus_init h0 p0) steps).replay_idx := hdo hqdone
  have hr2 : (bus_run (bus_init h0 p0) steps).replay_idx ≤ h0.length + p0.length := by
    rw [← hkeq]
    exact hidx
  refine ⟨(bus_run (bus_init h0 p0) steps).replay_idx - h0.length, by omega, ?_⟩
  rw [hdel, hdeq, List.take_length]
  rw [List.take_append_eq_append_take]
  rw [List.take_of_length_le hr1]
  rw [List.append_assoc]

/-- Counterexample to C9 as stated: the subscriber joins with event `1`
already in the history; event `2` is broadcast while the replay loop is
suspended in its first send, so the replay loop also reaches it and it is
then drained from the queue a second time — delivered `[1, 2, 2]`, a
duplicate, although every event was broadcast exactly once. -/
theorem C9_counterexample :
    bus_quiescent (bus_run (bus_init [1] [2])
      [.replay, .broadcast, .replay, .replay, .drain]) ∧
    (bus_run (bus_init [1] [2])
      [.replay, .broadcast, .replay, .replay, .drain]).delivered = [1, 2, 2] ∧
    ¬ (bus_run (bus_init [1] [2])
      [.replay, .broadcast, .replay, .replay, .drain]).delivered.Nodup := by
  refine ⟨⟨rfl, rfl, rfl⟩, rfl, by decide⟩

/-- Witness for the amended C9 at a concrete quiescent schedule. -/
theorem C9_witness :
    ∃ m ≤ ([20] : List Nat).length,
      (bus_run (bus_init [10] [20])
        [.broadcast, .replay, .replay, .replay, .drain]).delivered
        = [10] ++ (([20] : List Nat).take m ++ [20]) :=
  C9_replay_then_queue [10] [20] [.broadcast, .replay, .replay, .replay, .drain]
    ⟨rfl, rfl, rfl⟩

end MLEngineer
